import Mathlib

/-!
Shallow embedding of the DeSciDataShareFhe contract
(src/contracts/DeSci_DataShare_Fhe.sol).

Addresses, timestamps and 256-bit words are modelled as Nat (the zero
address is 0; no arithmetic in the contract can overflow a uint256 on the
inputs we consider, and Solidity 0.8 reverts on overflow anyway, so Nat is
faithful). Encrypted euint32 handles are modelled as symbolic FHE terms
(CT below): the contract never inspects a ciphertext, it only builds terms
with FHE.asEuint32, add, mul, FHE.inv, and hashes the resulting handle.
External calls are modelled as inputs: FHE.requestDecryption supplies the
requestId carried by the request action, and the outcome of
FHE.checkSignatures is the Boolean sigOk argument of myCallback.
A revert is modelled with Except: an error result leaves the state
unchanged (applyA), matching the all-or-nothing transaction semantics.
-/

namespace DeSci

/-- Symbolic FHE ciphertext handles (euint32 values). The constructor
default models a declared-but-uninitialized euint32 (the all-zero handle);
lit n models FHE.asEuint32(n). -/
inductive CT : Type
  | default : CT
  | lit : Nat → CT
  | add : CT → CT → CT
  | mul : CT → CT → CT
  | inv : CT → CT
deriving DecidableEq, Repr

/-- Injective numeric code of a ciphertext handle. -/
def encCT : CT → Nat
  | .default => 0
  | .lit n => Nat.pair 0 n + 1
  | .add a b => Nat.pair 1 (Nat.pair (encCT a) (encCT b)) + 1
  | .mul a b => Nat.pair 2 (Nat.pair (encCT a) (encCT b)) + 1
  | .inv a => Nat.pair 3 (encCT a) + 1

/-- Injective numeric code of a list of handles. -/
def encCTList : List CT → Nat
  | [] => 0
  | c :: cs => Nat.pair (encCT c) (encCTList cs) + 1

/-- Models _hashCiphertexts: keccak256(abi.encode(cts, address(this))) for
the single contract instance, as a deterministic collision-free digest.
A real keccak digest of a nonempty encoding is never the all-zero word (the
default value of an absent bytes32 storage slot), which the model reflects
by returning a positive number. -/
def hashCiphertexts (cts : List CT) : Nat := encCTList cts + 1

/-- Body of _initIfNeeded as it executes on the callee-local copy of the
euint32 parameter: when the flag is false it overwrites the local copy with
FHE.asEuint32(0). Returns the final value of the local copy. -/
def initIfNeededLocal (target : CT) (initialized : Bool) : CT :=
  if initialized then target else CT.lit 0

/-- A call _initIfNeeded(encryptedSum, initialized): euint32 is a value
type, so the callee receives a copy and returns nothing; the variable of
the caller is left untouched whatever the body does to the copy. Returns
the value of the variable of the caller after the call. -/
def callInitIfNeeded (callerVar : CT) (initialized : Bool) : CT :=
  let _ := initIfNeededLocal callerVar initialized
  callerVar

/-- The accumulation loop shared by requestAverageDecryption and
myCallback: encryptedSum starts uninitialized; for i in 1..n the code calls
_initIfNeeded(encryptedSum, initialized) with initialized = false and then
encryptedSum = encryptedSum.add(FHE.asEuint32(0)) (the placeholder data for
this example contract). -/
def sumLoop : Nat → CT
  | 0 => CT.default
  | n + 1 => CT.add (callInitIfNeeded (sumLoop n) false) (CT.lit 0)

/-- encryptedSum.mul(FHE.inv(encryptedCount)) where encryptedCount is
FHE.asEuint32(dataCount). -/
def averageCt (dataCount : Nat) : CT :=
  CT.mul (sumLoop dataCount) (CT.inv (CT.lit dataCount))

/-- struct Batch. -/
structure Batch where
  isOpen : Bool
  dataCount : Nat
deriving DecidableEq, Repr

/-- struct DecryptionContext. -/
structure DecryptionContext where
  batchId : Nat
  stateHash : Nat
  processed : Bool
deriving DecidableEq, Repr

/-- Error taxonomy. The contract declares the first nine; unknownRequest
appears in the taxonomy of the specification but is declared nowhere in the
contract source and is never raised by it. -/
inductive Err : Type
  | notOwner
  | notProvider
  | paused
  | cooldownActive
  | batchClosedOrInvalid
  | invalidCooldown
  | replayAttempt
  | stateMismatch
  | invalidProof
  | unknownRequest
deriving DecidableEq, Repr

/-- Contract storage. Solidity mappings are total maps; the request table
uses Option so that an id under which nothing was ever stored is visibly
absent, with reads applying the zero-struct default (getCtx). -/
structure State where
  owner : Nat
  isProvider : Nat → Bool
  paused : Bool
  cooldownSeconds : Nat
  lastSubmissionTime : Nat → Nat
  lastDecryptionRequestTime : Nat → Nat
  batches : Nat → Batch
  currentBatchId : Nat
  decryptionContexts : Nat → Option DecryptionContext

/-- Pointwise map update. -/
def upd {α : Type} (f : Nat → α) (k : Nat) (v : α) : Nat → α :=
  fun x => if x = k then v else f x

/-- Reading decryptionContexts[requestId]: a Solidity mapping read returns
the zero-initialized struct when no entry was ever stored. -/
def getCtx (s : State) (requestId : Nat) : DecryptionContext :=
  (s.decryptionContexts requestId).getD ⟨0, 0, false⟩

/-- The constructor, deployed by msg.sender = deployer: sets the owner,
makes the owner a provider, opens batch 1 and sets the default cooldown of
60 seconds. -/
def initState (deployer : Nat) : State where
  owner := deployer
  isProvider := upd (fun _ => false) deployer true
  paused := false
  cooldownSeconds := 60
  lastSubmissionTime := fun _ => 0
  lastDecryptionRequestTime := fun _ => 0
  batches := upd (fun _ => ⟨false, 0⟩) 1 ⟨true, 0⟩
  currentBatchId := 1
  decryptionContexts := fun _ => none

/-- function transferOwnership (onlyOwner). There is no check on newOwner. -/
def transferOwnership (s : State) (caller newOwner : Nat) : Except Err State :=
  if caller ≠ s.owner then .error .notOwner
  else .ok { s with owner := newOwner }

/-- function addProvider (onlyOwner, idempotent). -/
def addProvider (s : State) (caller p : Nat) : Except Err State :=
  if caller ≠ s.owner then .error .notOwner
  else if s.isProvider p then .ok s
  else .ok { s with isProvider := upd s.isProvider p true }

/-- function removeProvider (onlyOwner, idempotent). -/
def removeProvider (s : State) (caller p : Nat) : Except Err State :=
  if caller ≠ s.owner then .error .notOwner
  else if s.isProvider p then .ok { s with isProvider := upd s.isProvider p false }
  else .ok s

/-- function setPaused (onlyOwner). -/
def setPaused (s : State) (caller : Nat) (b : Bool) : Except Err State :=
  if caller ≠ s.owner then .error .notOwner
  else .ok { s with paused := b }

/-- function setCooldownSeconds (onlyOwner). -/
def setCooldownSeconds (s : State) (caller n : Nat) : Except Err State :=
  if caller ≠ s.owner then .error .notOwner
  else if n = 0 then .error .invalidCooldown
  else .ok { s with cooldownSeconds := n }

/-- function _closeBatch. -/
def closeBatchInternal (s : State) (batchId : Nat) : State :=
  if s.currentBatchId ≤ batchId ∧ (s.batches batchId).isOpen then
    { s with batches := upd s.batches batchId ⟨false, (s.batches batchId).dataCount⟩ }
  else s

/-- function _openBatch. -/
def openBatchInternal (s : State) (batchId : Nat) : State :=
  { s with batches := upd s.batches batchId ⟨true, 0⟩ }

/-- function openNewBatch (onlyOwner whenNotPaused). -/
def openNewBatch (s : State) (caller : Nat) : Except Err State :=
  if caller ≠ s.owner then .error .notOwner
  else if s.paused then .error .paused
  else
    let s1 := closeBatchInternal s s.currentBatchId
    let s2 := { s1 with currentBatchId := s1.currentBatchId + 1 }
    .ok (openBatchInternal s2 s2.currentBatchId)

/-- function submitData (onlyProvider whenNotPaused), at block.timestamp =
now. -/
def submitData (s : State) (caller now : Nat) (encryptedData : CT) :
    Except Err State :=
  if !s.isProvider caller then .error .notProvider
  else if s.paused then .error .paused
  else if now < s.lastSubmissionTime caller + s.cooldownSeconds then
    .error .cooldownActive
  else if !(s.batches s.currentBatchId).isOpen then .error .batchClosedOrInvalid
  else
    let bumped : Batch :=
      ⟨(s.batches s.currentBatchId).isOpen, (s.batches s.currentBatchId).dataCount + 1⟩
    .ok { s with
      lastSubmissionTime := upd s.lastSubmissionTime caller now
      batches := upd s.batches s.currentBatchId bumped }

/-- function _isValidBatchForAnalysis. -/
def isValidBatchForAnalysis (s : State) (batchId : Nat) : Bool :=
  decide (batchId ≤ s.currentBatchId) && decide (0 < batchId) &&
    !(s.batches batchId).isOpen && decide (0 < (s.batches batchId).dataCount)

/-- function requestAverageDecryption (whenNotPaused), at block.timestamp =
now; requestId is the fresh id returned by FHE.requestDecryption. -/
def requestAverageDecryption (s : State) (caller now batchId requestId : Nat) :
    Except Err State :=
  if s.paused then .error .paused
  else if now < s.lastDecryptionRequestTime caller + s.cooldownSeconds then
    .error .cooldownActive
  else if !isValidBatchForAnalysis s batchId then .error .batchClosedOrInvalid
  else
    let stateHash := hashCiphertexts [averageCt (s.batches batchId).dataCount]
    let ctxs := upd s.decryptionContexts requestId (some ⟨batchId, stateHash, false⟩)
    .ok { s with
      lastDecryptionRequestTime := upd s.lastDecryptionRequestTime caller now
      decryptionContexts := ctxs }

/-- function myCallback: sigOk is the outcome of FHE.checkSignatures on the
supplied proof, cleartexts the abi-encoded decrypted value. -/
def myCallback (s : State) (requestId cleartexts : Nat) (sigOk : Bool) :
    Except Err State :=
  if (getCtx s requestId).processed then .error .replayAttempt
  else
    let batchId := (getCtx s requestId).batchId
    let currentHash := hashCiphertexts [averageCt (s.batches batchId).dataCount]
    if currentHash ≠ (getCtx s requestId).stateHash then .error .stateMismatch
    else if !sigOk then .error .invalidProof
    else
      let ctxs := upd s.decryptionContexts requestId
        (some ⟨batchId, (getCtx s requestId).stateHash, true⟩)
      .ok { s with decryptionContexts := ctxs }

/-- External transactions, with the environment data each one carries
(caller, block.timestamp, oracle-chosen requestId, proof-check outcome). -/
inductive Action : Type
  | transferOwnership (caller newOwner : Nat)
  | addProvider (caller p : Nat)
  | removeProvider (caller p : Nat)
  | setPaused (caller : Nat) (b : Bool)
  | setCooldownSeconds (caller n : Nat)
  | openNewBatch (caller : Nat)
  | submitData (caller now : Nat) (encryptedData : CT)
  | requestAverageDecryption (caller now batchId requestId : Nat)
  | myCallback (requestId cleartexts : Nat) (sigOk : Bool)
deriving DecidableEq, Repr

/-- Dispatch one transaction. -/
def stepA (s : State) : Action → Except Err State
  | .transferOwnership c n => transferOwnership s c n
  | .addProvider c p => addProvider s c p
  | .removeProvider c p => removeProvider s c p
  | .setPaused c b => setPaused s c b
  | .setCooldownSeconds c n => setCooldownSeconds s c n
  | .openNewBatch c => openNewBatch s c
  | .submitData c now d => submitData s c now d
  | .requestAverageDecryption c now b rid => requestAverageDecryption s c now b rid
  | .myCallback rid cl sig => myCallback s rid cl sig

/-- A reverted transaction has no effect on storage. -/
def applyA (s : State) (a : Action) : State :=
  match stepA s a with
  | .ok s1 => s1
  | .error _ => s

/-- Run a sequence of transactions. -/
def execTrace (s : State) : List Action → State
  | [] => s
  | a :: rest => execTrace (applyA s a) rest

/-- Freshness guarantee of the external oracle: FHE.requestDecryption
returns a globally unique fresh requestId, so a request action never
reuses an id already present in the request table. -/
def freshOk (s : State) : Action → Bool
  | .requestAverageDecryption _ _ _ rid => (s.decryptionContexts rid).isNone
  | _ => true

/-- A trace in which the oracle honours its requestId freshness guarantee. -/
def wfTrace (s : State) : List Action → Bool
  | [] => true
  | a :: rest => freshOk s a && wfTrace (applyA s a) rest

/-- States reachable from construction by some sequence of transactions. -/
def Reachable (s : State) : Prop :=
  ∃ deployer acts, s = execTrace (initState deployer) acts

/-- The action is not a transferOwnership with a zero target. -/
def nzTransfer : Action → Prop
  | .transferOwnership _ n => n ≠ 0
  | _ => True

/-- Exactly one batch open, and it is the current one; ids start at 1. -/
def BatchInv (s : State) : Prop :=
  (∀ b, ((s.batches b).isOpen = true) ↔ b = s.currentBatchId) ∧
    1 ≤ s.currentBatchId

/-- A paused state used below: the owner toggles the switch right after
deployment. -/
def sPaused : State := execTrace (initState 1) [Action.setPaused 1 true]

/-- A state holding an already-processed request under id 3. -/
def sProcessed : State :=
  { initState 1 with
      decryptionContexts := upd (fun _ => none) 3 (some ⟨1, 0, true⟩) }

/-- A state holding a pending request under id 4 whose stored digest
matches the recomputation for batch 1 with two contributions. -/
def sFulfillable : State :=
  { initState 1 with
      batches := upd (fun _ => ⟨false, 0⟩) 1 ⟨false, 2⟩
      decryptionContexts := upd (fun _ => none) 4
        (some ⟨1, hashCiphertexts [averageCt 2], false⟩) }

/-- A state holding a pending request under id 7 whose stored digest does
not match the recomputation. -/
def sMismatch : State :=
  { initState 1 with
      decryptionContexts := upd (fun _ => none) 7 (some ⟨1, 0, false⟩) }

/-- A state whose batch 1 is closed with one contribution. -/
def sClosedOne : State :=
  { initState 1 with batches := upd (fun _ => ⟨false, 0⟩) 1 ⟨false, 1⟩ }

/-- C9: every call to the initializer helper _initIfNeeded leaves the
accumulator variable of the caller unchanged, for any value of the
initialized flag: euint32 arguments are passed by value, so the assignment
inside the helper only hits the callee-local copy (which the second
conjunct exhibits), and the accumulation loop therefore folds starting
from the uninitialized handle, never from a seeded zero. -/
theorem C9_initIfNeeded_never_seeds_accumulator :
    (∀ callerVar initialized, callInitIfNeeded callerVar initialized = callerVar) ∧
    initIfNeededLocal CT.default false = CT.lit 0 ∧
    ∀ n, sumLoop (n + 1) = CT.add (sumLoop n) (CT.lit 0) :=
  ⟨fun _ _ => rfl, rfl, fun _ => rfl⟩

/-- C10: when the contract is paused, requestAverageDecryption reverts with
Paused for every caller, timestamp and batch id, before the cooldown and
batch-validity checks (which the whenNotPaused modifier precedes). -/
theorem C10_paused_blocks_decryption_requests (s : State)
    (caller now batchId requestId : Nat) (hp : s.paused = true) :
    requestAverageDecryption s caller now batchId requestId =
      Except.error Err.paused := by
  simp [requestAverageDecryption, hp]

/-- C10 witness: at a concrete reachable paused state, a request on the
open batch with an active cooldown still reports Paused. -/
theorem C10_witness :
    requestAverageDecryption sPaused 2 0 1 0 = Except.error Err.paused :=
  C10_paused_blocks_decryption_requests sPaused 2 0 1 0 rfl

/-- C1 counterexample: the contract declares no UnknownRequest error, and at
a concrete input with no stored request under id 5 the callback reverts
with StateMismatch, not UnknownRequest. -/
theorem C1_counterexample :
    (initState 1).decryptionContexts 5 = none ∧
    myCallback (initState 1) 5 0 true = Except.error Err.stateMismatch ∧
    Err.stateMismatch ≠ Err.unknownRequest :=
  ⟨rfl, rfl, by decide⟩

/-- C1 amended: for a requestId under which no request was ever stored, the
callback still reverts for every cleartext and proof outcome, but with
StateMismatch: the mapping read yields the zero struct, whose zero
stateHash never equals the recomputed (nonzero) digest. -/
theorem C1_absent_request_reverts_state_mismatch (s : State)
    (requestId cleartexts : Nat) (sigOk : Bool)
    (h : s.decryptionContexts requestId = none) :
    myCallback s requestId cleartexts sigOk = Except.error Err.stateMismatch := by
  simp [myCallback, getCtx, h, hashCiphertexts]

/-- C1 witness: the amended statement at a concrete state and input. -/
theorem C1_witness :
    (initState 2).decryptionContexts 9 = none ∧
    myCallback (initState 2) 9 7 false = Except.error Err.stateMismatch :=
  ⟨rfl, C1_absent_request_reverts_state_mismatch (initState 2) 9 7 false rfl⟩

/-- C3: for a stored, not-yet-processed request whose stored digest differs
from the digest recomputed over the current contributions of its batch, the
callback reverts with StateMismatch for every cleartext and every proof
outcome (valid or not): the commitment comparison precedes the signature
check, so InvalidProof is never the reported failure in that situation. -/
theorem C3_mismatch_reverts_before_proof_check (s : State)
    (requestId cleartexts : Nat) (sigOk : Bool) (ctx : DecryptionContext)
    (hst : s.decryptionContexts requestId = some ctx)
    (hp : ctx.processed = false)
    (hne : hashCiphertexts [averageCt ((s.batches ctx.batchId).dataCount)] ≠
      ctx.stateHash) :
    myCallback s requestId cleartexts sigOk = Except.error Err.stateMismatch := by
  simp [myCallback, getCtx, hst, hp, hne]

/-- C3 witness: a concrete pending request with a stale digest is rejected
with StateMismatch even though the proof outcome is positive. -/
theorem C3_witness :
    myCallback sMismatch 7 5 true = Except.error Err.stateMismatch :=
  C3_mismatch_reverts_before_proof_check sMismatch 7 5 true ⟨1, 0, false⟩
    rfl rfl (by decide)

/-- One transaction never changes a stored request whose processed flag is
already true: the callback on that id reverts with ReplayAttempt, a fresh
request action (the oracle never reuses an id) writes elsewhere, and every
other operation leaves the request table alone. -/
theorem processed_stays_applyA (s : State) (a : Action) (requestId : Nat)
    (ctx : DecryptionContext) (hfr : freshOk s a = true)
    (hst : s.decryptionContexts requestId = some ctx)
    (hp : ctx.processed = true) :
    (applyA s a).decryptionContexts requestId = some ctx := by
  cases a with
  | transferOwnership c n =>
      simp only [applyA, stepA, transferOwnership]
      split_ifs <;> simp [hst]
  | addProvider c p =>
      simp only [applyA, stepA, addProvider]
      split_ifs <;> simp [hst]
  | removeProvider c p =>
      simp only [applyA, stepA, removeProvider]
      split_ifs <;> simp [hst]
  | setPaused c b =>
      simp only [applyA, stepA, setPaused]
      split_ifs <;> simp [hst]
  | setCooldownSeconds c n =>
      simp only [applyA, stepA, setCooldownSeconds]
      split_ifs <;> simp [hst]
  | openNewBatch c =>
      simp only [applyA, stepA, openNewBatch, closeBatchInternal, openBatchInternal]
      split_ifs <;> simp [hst]
  | submitData c now d =>
      simp only [applyA, stepA, submitData]
      split_ifs <;> simp [hst]
  | requestAverageDecryption c now b rid =>
      have hne : requestId ≠ rid := by
        intro e
        subst e
        simp [freshOk, hst] at hfr
      simp only [applyA, stepA, requestAverageDecryption]
      split_ifs <;> simp [upd, hne, hst]
  | myCallback rid cl sig =>
      by_cases hrid : rid = requestId
      · subst hrid
        simp [applyA, stepA, myCallback, getCtx, hst, hp]
      · have hne : requestId ≠ rid := fun e => hrid e.symm
        simp only [applyA, stepA, myCallback]
        split_ifs <;> simp [upd, hne, hst]

/-- Along any trace in which the oracle honours requestId freshness, a
processed request entry persists unchanged. -/
theorem processed_stays_exec (s : State) (acts : List Action) (requestId : Nat)
    (ctx : DecryptionContext) (hwf : wfTrace s acts = true)
    (hst : s.decryptionContexts requestId = some ctx)
    (hp : ctx.processed = true) :
    (execTrace s acts).decryptionContexts requestId = some ctx := by
  induction acts generalizing s with
  | nil => exact hst
  | cons a rest ih =>
      rw [wfTrace, Bool.and_eq_true] at hwf
      exact ih (applyA s a) hwf.2
        (processed_stays_applyA s a requestId ctx hwf.1 hst hp)

/-- C2: the processed flag of a stored request transitions from false to
true at most once. A callback that succeeds found the flag false and leaves
it true; once a request is stored with processed = true, every further
callback under that id reverts with ReplayAttempt, and no operation of any
trace (with the oracle honouring requestId freshness) ever resets the flag
to false. -/
theorem C2_fulfilled_exactly_once :
    (∀ s requestId cleartexts sigOk s1,
        myCallback s requestId cleartexts sigOk = Except.ok s1 →
        (getCtx s requestId).processed = false ∧
        s1.decryptionContexts requestId =
          some ⟨(getCtx s requestId).batchId, (getCtx s requestId).stateHash, true⟩) ∧
    ∀ s requestId ctx, s.decryptionContexts requestId = some ctx →
      ctx.processed = true →
      (∀ cleartexts sigOk,
          myCallback s requestId cleartexts sigOk = Except.error Err.replayAttempt) ∧
      ∀ acts, wfTrace s acts = true →
        (execTrace s acts).decryptionContexts requestId = some ctx := by
  constructor
  · intro s requestId cleartexts sigOk s1 h
    simp only [myCallback] at h
    by_cases h1 : (getCtx s requestId).processed = true
    · rw [if_pos h1] at h
      exact Except.noConfusion h
    · rw [if_neg h1] at h
      by_cases h2 : hashCiphertexts
          [averageCt (s.batches (getCtx s requestId).batchId).dataCount] ≠
          (getCtx s requestId).stateHash
      · rw [if_pos h2] at h
        exact Except.noConfusion h
      · rw [if_neg h2] at h
        by_cases h3 : (!sigOk) = true
        · rw [if_pos h3] at h
          exact Except.noConfusion h
        · rw [if_neg h3] at h
          cases h
          exact ⟨by simpa using h1, by simp [upd]⟩
  · intro s requestId ctx hst hp
    refine ⟨fun cleartexts sigOk => ?_, fun acts hwf =>
      processed_stays_exec s acts requestId ctx hwf hst hp⟩
    simp [myCallback, getCtx, hst, hp]

/-- C2 witness: a concrete first callback succeeds and flips the flag, the
same callback replayed on the resulting state reverts with ReplayAttempt, a
processed entry is rejected directly, and it survives a further transaction. -/
theorem C2_witness :
    ((getCtx sFulfillable 4).processed = false ∧
      (applyA sFulfillable (Action.myCallback 4 11 true)).decryptionContexts 4 =
        some ⟨1, hashCiphertexts [averageCt 2], true⟩) ∧
    myCallback (applyA sFulfillable (Action.myCallback 4 11 true)) 4 11 true =
      Except.error Err.replayAttempt ∧
    myCallback sProcessed 3 0 true = Except.error Err.replayAttempt ∧
    (execTrace sProcessed [Action.openNewBatch 1]).decryptionContexts 3 =
      some ⟨1, 0, true⟩ := by
  refine ⟨?_, ?_, ?_, ?_⟩
  · exact C2_fulfilled_exactly_once.1 sFulfillable 4 11 true _ rfl
  · exact (C2_fulfilled_exactly_once.2 (applyA sFulfillable (Action.myCallback 4 11 true))
      4 ⟨1, hashCiphertexts [averageCt 2], true⟩ rfl rfl).1 11 true
  · exact (C2_fulfilled_exactly_once.2 sProcessed 3 ⟨1, 0, true⟩ rfl rfl).1 0 true
  · exact (C2_fulfilled_exactly_once.2 sProcessed 3 ⟨1, 0, true⟩ rfl rfl).2
      [Action.openNewBatch 1] rfl

/-- The single-open-batch invariant holds at construction. -/
theorem batchInv_initState (d : Nat) : BatchInv (initState d) := by
  constructor
  · intro b
    by_cases hb : b = 1 <;> simp [initState, upd, hb]
  · simp [initState]

/-- Every transaction preserves the single-open-batch invariant. -/
theorem batchInv_applyA (s : State) (a : Action) (h : BatchInv s) :
    BatchInv (applyA s a) := by
  obtain ⟨hiff, hpos⟩ := h
  cases a with
  | transferOwnership c n =>
      simp only [applyA, stepA, transferOwnership]
      split_ifs <;> exact ⟨hiff, hpos⟩
  | addProvider c p =>
      simp only [applyA, stepA, addProvider]
      split_ifs <;> exact ⟨hiff, hpos⟩
  | removeProvider c p =>
      simp only [applyA, stepA, removeProvider]
      split_ifs <;> exact ⟨hiff, hpos⟩
  | setPaused c b =>
      simp only [applyA, stepA, setPaused]
      split_ifs <;> exact ⟨hiff, hpos⟩
  | setCooldownSeconds c n =>
      simp only [applyA, stepA, setCooldownSeconds]
      split_ifs <;> exact ⟨hiff, hpos⟩
  | openNewBatch c =>
      simp only [applyA, stepA, openNewBatch, closeBatchInternal, openBatchInternal]
      split_ifs with h1 h2 h3
      · exact ⟨hiff, hpos⟩
      · exact ⟨hiff, hpos⟩
      · refine ⟨fun b => ?_, Nat.le_succ_of_le hpos⟩
        by_cases hb : b = s.currentBatchId + 1
        · subst hb
          simp [upd]
        · by_cases hb2 : b = s.currentBatchId
          · subst hb2
            simp [upd, hb]
          · simp [upd, hb, hb2, hiff b]
      · exact absurd ⟨le_refl _, (hiff _).mpr rfl⟩ h3
  | submitData c now d =>
      simp only [applyA, stepA, submitData]
      split_ifs with h1 h2 h3 h4
      · exact ⟨hiff, hpos⟩
      · exact ⟨hiff, hpos⟩
      · exact ⟨hiff, hpos⟩
      · exact ⟨hiff, hpos⟩
      · refine ⟨fun b => ?_, hpos⟩
        by_cases hb : b = s.currentBatchId
        · subst hb
          simp [upd, (hiff s.currentBatchId).mpr rfl]
        · simpa [upd, hb] using hiff b
  | requestAverageDecryption c now b rid =>
      simp only [applyA, stepA, requestAverageDecryption]
      split_ifs <;> exact ⟨hiff, hpos⟩
  | myCallback rid cl sig =>
      simp only [applyA, stepA, myCallback]
      split_ifs <;> exact ⟨hiff, hpos⟩

/-- The single-open-batch invariant holds along any trace. -/
theorem batchInv_exec (s : State) (acts : List Action) (h : BatchInv s) :
    BatchInv (execTrace s acts) := by
  induction acts generalizing s with
  | nil => exact h
  | cons a rest ih => exact ih (applyA s a) (batchInv_applyA s a h)

/-- currentBatchId never decreases across a transaction. -/
theorem currentBatchId_mono_applyA (s : State) (a : Action) :
    s.currentBatchId ≤ (applyA s a).currentBatchId := by
  cases a <;>
    simp only [applyA, stepA, transferOwnership, addProvider, removeProvider,
      setPaused, setCooldownSeconds, openNewBatch, submitData,
      requestAverageDecryption, myCallback, closeBatchInternal,
      openBatchInternal] <;>
    split_ifs <;> simp [Nat.le_succ]

/-- A batch whose id is at most currentBatchId and which is closed stays
closed across any transaction: the only batch ever opened is the fresh one
with id currentBatchId + 1. -/
theorem closed_stays_applyA (s : State) (a : Action) (b : Nat)
    (hb : b ≤ s.currentBatchId) (hc : (s.batches b).isOpen = false) :
    ((applyA s a).batches b).isOpen = false := by
  cases a with
  | transferOwnership c n =>
      simp only [applyA, stepA, transferOwnership]
      split_ifs <;> exact hc
  | addProvider c p =>
      simp only [applyA, stepA, addProvider]
      split_ifs <;> exact hc
  | removeProvider c p =>
      simp only [applyA, stepA, removeProvider]
      split_ifs <;> exact hc
  | setPaused c bb =>
      simp only [applyA, stepA, setPaused]
      split_ifs <;> exact hc
  | setCooldownSeconds c n =>
      simp only [applyA, stepA, setCooldownSeconds]
      split_ifs <;> exact hc
  | openNewBatch c =>
      have hb1 : b ≠ s.currentBatchId + 1 := by omega
      simp only [applyA, stepA, openNewBatch, closeBatchInternal, openBatchInternal]
      split_ifs with h1 h2 h3
      · exact hc
      · exact hc
      · by_cases hb2 : b = s.currentBatchId
        · subst hb2
          simp [upd, hb1]
        · simp [upd, hb1, hb2, hc]
      · simp [upd, hb1, hc]
  | submitData c now d =>
      simp only [applyA, stepA, submitData]
      split_ifs with h1 h2 h3 h4
      · exact hc
      · exact hc
      · exact hc
      · exact hc
      · by_cases hb2 : b = s.currentBatchId
        · subst hb2
          simp [upd, hc]
        · simp [upd, hb2, hc]
  | requestAverageDecryption c now bb rid =>
      simp only [applyA, stepA, requestAverageDecryption]
      split_ifs <;> exact hc
  | myCallback rid cl sig =>
      simp only [applyA, stepA, myCallback]
      split_ifs <;> exact hc

/-- C4: in every reachable state exactly one batch is open, namely the one
with id currentBatchId; batch ids start at 1 and never decrease (each
rotation assigns the next id), and a batch that is closed is never
reopened by any further transaction. -/
theorem C4_single_open_batch (s : State) (h : Reachable s) :
    (∀ b, ((s.batches b).isOpen = true) ↔ b = s.currentBatchId) ∧
    1 ≤ s.currentBatchId ∧
    ∀ a, s.currentBatchId ≤ (applyA s a).currentBatchId ∧
      ∀ b, b ≤ s.currentBatchId → (s.batches b).isOpen = false →
        ((applyA s a).batches b).isOpen = false := by
  obtain ⟨d, acts, rfl⟩ := h
  have hinv := batchInv_exec (initState d) acts (batchInv_initState d)
  exact ⟨hinv.1, hinv.2, fun a =>
    ⟨currentBatchId_mono_applyA _ a, fun b hb hc => closed_stays_applyA _ a b hb hc⟩⟩

/-- C4 witness: after one rotation from construction, batch 2 is the open
batch (and it equals currentBatchId). -/
theorem C4_witness :
    ((execTrace (initState 1) [Action.openNewBatch 1]).batches 2).isOpen = true := by
  have h := C4_single_open_batch (execTrace (initState 1) [Action.openNewBatch 1])
    ⟨1, [Action.openNewBatch 1], rfl⟩
  exact (h.1 2).mpr rfl

/-- A transaction that is not a zero-target ownership transfer preserves a
nonzero owner: transferOwnership is the only operation writing the owner
field, and it copies its argument without any zero-address check. -/
theorem owner_nz_applyA (s : State) (a : Action) (hnz : nzTransfer a)
    (h : s.owner ≠ 0) : (applyA s a).owner ≠ 0 := by
  cases a with
  | transferOwnership c n =>
      simp only [applyA, stepA, transferOwnership]
      split_ifs
      · exact h
      · simpa [nzTransfer] using hnz
  | addProvider c p =>
      simp only [applyA, stepA, addProvider]
      split_ifs <;> exact h
  | removeProvider c p =>
      simp only [applyA, stepA, removeProvider]
      split_ifs <;> exact h
  | setPaused c b =>
      simp only [applyA, stepA, setPaused]
      split_ifs <;> exact h
  | setCooldownSeconds c n =>
      simp only [applyA, stepA, setCooldownSeconds]
      split_ifs <;> exact h
  | openNewBatch c =>
      simp only [applyA, stepA, openNewBatch, closeBatchInternal, openBatchInternal]
      split_ifs <;> exact h
  | submitData c now d =>
      simp only [applyA, stepA, submitData]
      split_ifs <;> exact h
  | requestAverageDecryption c now b rid =>
      simp only [applyA, stepA, requestAverageDecryption]
      split_ifs <;> exact h
  | myCallback rid cl sig =>
      simp only [applyA, stepA, myCallback]
      split_ifs <;> exact h

/-- Nonzero owner persists along a trace whose ownership transfers all have
nonzero targets. -/
theorem owner_nz_exec (s : State) (acts : List Action) (h : s.owner ≠ 0)
    (hacts : ∀ a ∈ acts, nzTransfer a) : (execTrace s acts).owner ≠ 0 := by
  induction acts generalizing s with
  | nil => exact h
  | cons a rest ih =>
      refine ih (applyA s a) (owner_nz_applyA s a (hacts a (by simp)) h) ?_
      intro x hx
      exact hacts x (by simp [hx])

/-- C5 counterexample: transferOwnership performs no zero-address check, so
the owner of a reachable state can be the zero address: a nonzero deployer
transfers ownership to address 0 and the call succeeds. -/
theorem C5_counterexample :
    Reachable (execTrace (initState 1) [Action.transferOwnership 1 0]) ∧
    (execTrace (initState 1) [Action.transferOwnership 1 0]).owner = 0 :=
  ⟨⟨1, [Action.transferOwnership 1 0], rfl⟩, rfl⟩

/-- C5 amended: the owner is nonzero in every state reached from a nonzero
deployer, provided no executed transferOwnership carries the zero address
as its target; the contract itself never enforces this. -/
theorem C5_owner_nonzero_without_zero_transfers (deployer : Nat)
    (acts : List Action) (hd : deployer ≠ 0)
    (hacts : ∀ a ∈ acts, nzTransfer a) :
    (execTrace (initState deployer) acts).owner ≠ 0 :=
  owner_nz_exec (initState deployer) acts hd hacts

/-- C5 witness: the amended statement at a concrete deployer and trace. -/
theorem C5_witness :
    (execTrace (initState 3) [Action.transferOwnership 3 5]).owner ≠ 0 :=
  C5_owner_nonzero_without_zero_transfers 3 [Action.transferOwnership 3 5]
    (by decide)
    (by
      intro a ha
      rw [List.mem_singleton] at ha
      subst ha
      simp [nzTransfer])

/-- C6: the batch-validity predicate used by the decryption-request path
holds exactly for a positive id at most currentBatchId whose batch is
closed and nonempty; consequently a request on an open batch, or on a
closed empty batch, reverts with BatchClosedOrInvalid (once the earlier
pause and cooldown gates pass, which run first). -/
theorem C6_valid_batch_for_analysis (s : State) (batchId : Nat) :
    (isValidBatchForAnalysis s batchId = true ↔
      0 < batchId ∧ batchId ≤ s.currentBatchId ∧
        (s.batches batchId).isOpen = false ∧
        0 < (s.batches batchId).dataCount) ∧
    ∀ caller now requestId, s.paused = false →
      s.lastDecryptionRequestTime caller + s.cooldownSeconds ≤ now →
      ((s.batches batchId).isOpen = true ∨
        ((s.batches batchId).isOpen = false ∧ (s.batches batchId).dataCount = 0)) →
      requestAverageDecryption s caller now batchId requestId =
        Except.error Err.batchClosedOrInvalid := by
  constructor
  · simp only [isValidBatchForAnalysis, Bool.and_eq_true, decide_eq_true_eq,
      Bool.not_eq_true']
    tauto
  · intro caller now requestId hpause hcd hbad
    have hval : isValidBatchForAnalysis s batchId = false := by
      rcases hbad with hopen | ⟨hclosed, hzero⟩
      · simp [isValidBatchForAnalysis, hopen]
      · simp [isValidBatchForAnalysis, hzero]
    have h1 : ¬ s.paused = true := by simp [hpause]
    have h2 : ¬ now < s.lastDecryptionRequestTime caller + s.cooldownSeconds := by
      omega
    simp [requestAverageDecryption, h1, h2, hval]

/-- C6 witness: a request on the open batch 1 right after construction by a
caller with elapsed cooldown reverts with BatchClosedOrInvalid, and the
validity predicate agrees with its specification at batch 1. -/
theorem C6_witness :
    isValidBatchForAnalysis (initState 1) 1 = false ∧
    requestAverageDecryption (initState 1) 2 100 1 0 =
      Except.error Err.batchClosedOrInvalid := by
  refine ⟨rfl, ?_⟩
  exact (C6_valid_batch_for_analysis (initState 1) 1).2 2 100 0 rfl (by decide)
    (Or.inl rfl)

/-- C7: with the other gates of the operation passing (authorized caller,
contract not paused), the rate gate rejects with CooldownActive exactly
when now is strictly before lastActionTime plus cooldownSeconds, for both
rate-limited action classes; the boundary is inclusive: at now equal to
lastActionTime plus cooldownSeconds the action (on a suitable batch) is
admitted and now is recorded as the new last-action time of the caller. -/
theorem C7_cooldown_gate (s : State) (caller now batchId requestId : Nat)
    (d : CT) (hprov : s.isProvider caller = true) (hpause : s.paused = false) :
    ((submitData s caller now d = Except.error Err.cooldownActive ↔
        now < s.lastSubmissionTime caller + s.cooldownSeconds) ∧
      (requestAverageDecryption s caller now batchId requestId =
          Except.error Err.cooldownActive ↔
        now < s.lastDecryptionRequestTime caller + s.cooldownSeconds)) ∧
    ((s.batches s.currentBatchId).isOpen = true →
      now = s.lastSubmissionTime caller + s.cooldownSeconds →
      ∃ s1, submitData s caller now d = Except.ok s1 ∧
        s1.lastSubmissionTime caller = now) ∧
    (isValidBatchForAnalysis s batchId = true →
      now = s.lastDecryptionRequestTime caller + s.cooldownSeconds →
      ∃ s1, requestAverageDecryption s caller now batchId requestId =
          Except.ok s1 ∧
        s1.lastDecryptionRequestTime caller = now) := by
  refine ⟨⟨?_, ?_⟩, ?_, ?_⟩
  · by_cases hcd : now < s.lastSubmissionTime caller + s.cooldownSeconds
    · simp [submitData, hprov, hpause, hcd]
    · simp only [submitData, hprov, hpause, hcd]
      simp only [Bool.not_true, Bool.false_eq_true, if_false, if_neg hcd]
      split_ifs <;> simp [hcd]
  · by_cases hcd : now < s.lastDecryptionRequestTime caller + s.cooldownSeconds
    · simp [requestAverageDecryption, hpause, hcd]
    · simp only [requestAverageDecryption, hpause, Bool.false_eq_true, if_false,
        if_neg hcd]
      split_ifs <;> simp [hcd]
  · intro hopen heq
    have h2 : ¬ now < s.lastSubmissionTime caller + s.cooldownSeconds := by omega
    have hres : submitData s caller now d = Except.ok { s with
        lastSubmissionTime := upd s.lastSubmissionTime caller now
        batches := upd s.batches s.currentBatchId ⟨(s.batches s.currentBatchId).isOpen, (s.batches s.currentBatchId).dataCount + 1⟩ } := by
      simp [submitData, hprov, hpause, h2, hopen]
    exact ⟨_, hres, by simp [upd]⟩
  · intro hval heq
    have h2 : ¬ now < s.lastDecryptionRequestTime caller + s.cooldownSeconds := by
      omega
    have hres : requestAverageDecryption s caller now batchId requestId =
        Except.ok { s with
          lastDecryptionRequestTime := upd s.lastDecryptionRequestTime caller now
          decryptionContexts := upd s.decryptionContexts requestId (some ⟨batchId, hashCiphertexts [averageCt (s.batches batchId).dataCount], false⟩) } := by
      simp [requestAverageDecryption, hpause, h2, hval]
    exact ⟨_, hres, by simp [upd]⟩

/-- C7 witness: with the default 60-second cooldown, the deploying provider
is rejected at t = 30 with CooldownActive, admitted at the inclusive
boundary t = 60 with the submission time recorded, and a decryption request
at its boundary on a closed nonempty batch is admitted and recorded. -/
theorem C7_witness :
    submitData (initState 1) 1 30 (CT.lit 5) = Except.error Err.cooldownActive ∧
    (∃ s1, submitData (initState 1) 1 60 (CT.lit 5) = Except.ok s1 ∧
      s1.lastSubmissionTime 1 = 60) ∧
    ∃ s1, requestAverageDecryption sClosedOne 1 60 1 8 = Except.ok s1 ∧
      s1.lastDecryptionRequestTime 1 = 60 := by
  refine ⟨?_, ?_, ?_⟩
  · exact ((C7_cooldown_gate (initState 1) 1 30 1 0 (CT.lit 5) rfl rfl).1.1).mpr
      (by decide)
  · exact (C7_cooldown_gate (initState 1) 1 60 1 0 (CT.lit 5) rfl rfl).2.1 rfl
      (by decide)
  · exact (C7_cooldown_gate sClosedOne 1 60 1 8 (CT.lit 5) rfl rfl).2.2 rfl
      (by decide)

/-- C8 counterexample: while paused, a data submission by a non-provider
reverts with NotProvider, not Paused: the onlyProvider modifier runs before
whenNotPaused, so the claim as stated (every submission fails with Paused)
does not hold for unauthorized callers. -/
theorem C8_counterexample :
    sPaused.paused = true ∧ sPaused.isProvider 2 = false ∧
    submitData sPaused 2 100 (CT.lit 0) = Except.error Err.notProvider ∧
    Err.notProvider ≠ Err.paused :=
  ⟨rfl, rfl, rfl, by decide⟩

/-- C8 amended: while paused, every submission and every rotation reverts
(with Paused for a provider respectively for the owner; the access checks
run first and report NotProvider/NotOwner otherwise), while ownership
transfer, provider administration and pause toggling by the owner still
succeed, unaffected by the pause flag. -/
theorem C8_pause_blocks_operations_not_admin (s : State) (hp : s.paused = true) :
    (∀ caller now d, ∃ e, submitData s caller now d = Except.error e) ∧
    (∀ caller now d, s.isProvider caller = true →
      submitData s caller now d = Except.error Err.paused) ∧
    (∀ caller, ∃ e, openNewBatch s caller = Except.error e) ∧
    openNewBatch s s.owner = Except.error Err.paused ∧
    (∀ n, transferOwnership s s.owner n = Except.ok { s with owner := n }) ∧
    (∀ p, ∃ s1, addProvider s s.owner p = Except.ok s1) ∧
    (∀ p, ∃ s1, removeProvider s s.owner p = Except.ok s1) ∧
    ∀ b, setPaused s s.owner b = Except.ok { s with paused := b } := by
  refine ⟨?_, ?_, ?_, ?_, ?_, ?_, ?_, ?_⟩
  · intro caller now d
    by_cases hpr : s.isProvider caller = true
    · exact ⟨Err.paused, by simp [submitData, hpr, hp]⟩
    · rw [Bool.not_eq_true] at hpr
      exact ⟨Err.notProvider, by simp [submitData, hpr]⟩
  · intro caller now d hpr
    simp [submitData, hpr, hp]
  · intro caller
    by_cases hc : caller = s.owner
    · subst hc
      exact ⟨Err.paused, by simp [openNewBatch, hp]⟩
    · exact ⟨Err.notOwner, by simp [openNewBatch, hc]⟩
  · simp [openNewBatch, hp]
  · intro n
    simp [transferOwnership]
  · intro p
    by_cases hpr : s.isProvider p = true
    · exact ⟨s, by simp [addProvider, hpr]⟩
    · rw [Bool.not_eq_true] at hpr
      exact ⟨{ s with isProvider := upd s.isProvider p true },
        by simp [addProvider, hpr]⟩
  · intro p
    by_cases hpr : s.isProvider p = true
    · exact ⟨{ s with isProvider := upd s.isProvider p false },
        by simp [removeProvider, hpr]⟩
    · rw [Bool.not_eq_true] at hpr
      exact ⟨s, by simp [removeProvider, hpr]⟩
  · intro b
    simp [setPaused]

/-- C8 witness: in a concrete reachable paused state, the provider-owner is
blocked from submitting and rotating with Paused, while addProvider and
setPaused by the owner still succeed. -/
theorem C8_witness :
    submitData sPaused 1 100 (CT.lit 0) = Except.error Err.paused ∧
    openNewBatch sPaused 1 = Except.error Err.paused ∧
    (∃ s1, addProvider sPaused 1 5 = Except.ok s1) ∧
    setPaused sPaused 1 false = Except.ok { sPaused with paused := false } := by
  have h := C8_pause_blocks_operations_not_admin sPaused rfl
  exact ⟨h.2.1 1 100 (CT.lit 0) rfl, h.2.2.2.1, h.2.2.2.2.2.1 5,
    h.2.2.2.2.2.2.2 false⟩

end DeSci
